import Mathlib

/-!
Verification of the BeatFindr lead-generation scraper (`main.py`).

Text is modelled as `List Char` (a Python `str` is a sequence of code
points; the lexicons are ASCII).  Pure functions of the source are
translated directly; the stateful steps (Google-Sheet access, HTTP
fetching, SMTP) are modelled by explicit state passing: the sheet is a
list of rows, the fetched records are parameters, and the e-mail is a
value describing exactly what would be sent.
-/

namespace BeatFindr

/-- Python's `\s` character class, ASCII range: space, tab, newline,
carriage return, vertical tab, form feed.  Used by `re.sub(r"\s+", " ", ·)`
and `str.strip()` in `normalize`. -/
def isWs (c : Char) : Bool :=
  c.toNat = 32 || c.toNat = 9 || c.toNat = 10 || c.toNat = 13 ||
    c.toNat = 11 || c.toNat = 12

/-- `re.sub(r"\s+", " ", ·)`: replace every maximal run of whitespace by a
single space.  The boolean argument records whether the previous character
was part of a whitespace run. -/
def collapseWs : Bool → List Char → List Char
  | _, [] => []
  | prevWs, c :: cs =>
    if isWs c then
      if prevWs then collapseWs true cs else ' ' :: collapseWs true cs
    else c :: collapseWs false cs

/-- Python `str.strip()`: drop leading and trailing whitespace. -/
def stripWs (l : List Char) : List Char :=
  ((l.dropWhile isWs).reverse.dropWhile isWs).reverse

/-- `normalize(text)`: `re.sub(r"\s+", " ", text.lower()).strip()`.
Lowercasing is ASCII `Char.toLower`, matching `str.lower()` on the ASCII
texts the lexicons consist of. -/
def normalize (text : List Char) : List Char :=
  stripWs (collapseWs false (text.map Char.toLower))

/-- `normalize` applied to a possibly absent input: the source computes
`(text or "")` first, so `None` (and `""`) normalize to `""`. -/
def normalizeOpt (text : Option (List Char)) : List Char :=
  normalize (text.getD [])

/-- Invariant of collapsed text: every whitespace character is a plain
space. -/
abbrev AllWsSpace (l : List Char) : Prop :=
  ∀ c ∈ l, isWs c = true → c = ' '

/-- Invariant of collapsed text: no two adjacent characters are both
whitespace. -/
abbrev NoAdjWs (l : List Char) : Prop :=
  l.Chain' (fun a b => ¬(isWs a = true ∧ isWs b = true))

/-- Python substring containment `pat in hay` on strings: `pat` occurs as a
contiguous substring of `hay` (the empty pattern is contained in
everything). -/
def containsSub : List Char → List Char → Bool
  | [], pat => pat.isEmpty
  | h :: t, pat => pat.isPrefixOf (h :: t) || containsSub t pat

/-- `contains_any(text, terms)`: `any(t in text for t in terms)`. -/
def contains_any (text : List Char) (terms : List (List Char)) : Bool :=
  terms.any (fun t => containsSub text t)

/-- `INTENT_TERMS` lexicon (buyer intent). -/
def INTENT_TERMS : List (List Char) :=
  ["buy", "buying", "purchase", "pay", "paying", "budget", "usd", "$",
   "need", "looking for", "seeking", "request", "requests", "commission",
   "hire", "hiring", "brief", "placement", "sync", "licensing", "supervisor",
   "exclusive rights", "non-exclusive", "nonexclusive", "custom"].map (·.toList)

/-- `ASSET_TERMS` lexicon (product nouns). -/
def ASSET_TERMS : List (List Char) :=
  ["beat", "beats", "instrumental", "instrumentals", "track", "tracks",
   "music", "cue", "cues", "score", "soundtrack"].map (·.toList)

/-- `GENRE_TERMS` lexicon (style / genre). -/
def GENRE_TERMS : List (List Char) :=
  ["trap", "hip hop", "hip-hop", "rap", "drill", "boom bap",
   "cinematic", "orchestral", "dark", "epic", "cinematic hip hop",
   "orchestral hip hop"].map (·.toList)

/-- `USE_CASE_TERMS` lexicon (downstream usage). -/
def USE_CASE_TERMS : List (List Char) :=
  ["for video", "for film", "for movie", "for short film", "for youtube",
   "for tiktok", "for ad", "for trailer", "for commercial", "for podcast",
   "for game", "for tv", "for tv show"].map (·.toList)

/-- `NEGATIVE_TERMS` lexicon (seller self-promotion noise). -/
def NEGATIVE_TERMS : List (List Char) :=
  ["check my beat", "my new beat", "free beats", "i sell beats", "selling beats",
   "beat store", "beatstars.com", "airbit.com", "type beat pack", "beat pack",
   "prod by", "producer tag", "stream my beat"].map (·.toList)

/-- The inline set `{"sync", "licensing", "placement", "brief"}` tested in
`looks_like_buyer`. -/
def SYNCY_TERMS : List (List Char) :=
  ["sync", "licensing", "placement", "brief"].map (·.toList)

/-- `looks_like_buyer(text)`: asset AND (intent OR `$`) AND (genre OR
use-case OR sync-set). -/
def looks_like_buyer (text : List Char) : Bool :=
  let intent := contains_any text INTENT_TERMS || containsSub text "$".toList
  let asset := contains_any text ASSET_TERMS
  let style := contains_any text GENRE_TERMS
  let syncy := contains_any text USE_CASE_TERMS || contains_any text SYNCY_TERMS
  asset && intent && (style || syncy)

/-- `is_noise(text)`: any negative term occurs. -/
def is_noise (text : List Char) : Bool :=
  contains_any text NEGATIVE_TERMS

/-- A persisted lead (one sheet row's worth of data). -/
structure Lead where
  timestamp : List Char
  source : List Char
  who : List Char
  title : List Char
  url : List Char
  tags : List Char
  deriving DecidableEq

/-- A raw Reddit search record, after the source's `or`-defaults:
`title = d.get("title") or ""` etc., so an absent field is the empty
string. -/
structure RedditPost where
  title : List Char
  author : List Char
  permalink : List Char
  url : List Char
  deriving DecidableEq

def REDDIT_BASE : List Char := "https://www.reddit.com".toList

def redditSource : List Char := "Reddit".toList

def unknownAuthor : List Char := "unknown".toList

/-- Body of the per-item loop of `search_reddit`: classify the record's
title and build a `Lead`, or drop it (`continue`).  `q` is the seed query
that produced the record and `ts` the capture timestamp (assigned by the
caller, as `datetime.now` is effectful). -/
def redditProcess (q ts : List Char) (p : RedditPost) : Option Lead :=
  let tl := normalize p.title
  if p.title.isEmpty || is_noise tl || !looks_like_buyer tl then none
  else
    let author := if p.author.isEmpty then unknownAuthor else p.author
    let url := if !p.permalink.isEmpty then REDDIT_BASE ++ p.permalink else p.url
    if url.isEmpty then none
    else some { timestamp := ts, source := redditSource,
                who := "u/".toList ++ author, title := p.title, url := url,
                tags := "reddit; ".toList ++ q }

/-- A raw RSS feed entry after the `or`-defaults of `search_sync_rss`. -/
structure RssEntry where
  title : List Char
  link : List Char
  deriving DecidableEq

/-- The secondary intent set tested in `search_sync_rss`. -/
def RSS_SECONDARY_TERMS : List (List Char) :=
  ["sync", "licensing", "placement", "brief", "supervisor",
   "call for submissions", "music wanted"].map (·.toList)

/-- The extra style set `{"hiphop", "urban"}` tested in `search_sync_rss`. -/
def RSS_STYLE_EXTRA : List (List Char) :=
  ["hiphop", "urban"].map (·.toList)

/-- Body of the per-entry loop of `search_sync_rss`: drop entries without a
link, drop noise, then require a secondary-intent match and a style match.
`source` is the feed's declared title and `ts` the capture timestamp. -/
def rssProcess (source ts : List Char) (e : RssEntry) : Option Lead :=
  if e.link.isEmpty then none
  else
    let tl := normalize e.title
    if is_noise tl then none
    else
      let intentish := contains_any tl RSS_SECONDARY_TERMS
      let styleish := contains_any tl GENRE_TERMS || contains_any tl RSS_STYLE_EXTRA
      if !(intentish && styleish) then none
      else some { timestamp := ts, source := source, who := source,
                  title := e.title, url := e.link, tags := "sync; rss".toList }

/-- One sheet row: a list of cell strings. -/
abbrev Row := List (List Char)

/-- The expected header row of `get_sheet`. -/
def HEADER : Row :=
  ["Timestamp", "Source", "From/Author", "Title", "URL", "Tags"].map (·.toList)

/-- The sheet-repair step of `get_sheet`: `if not values or values[0] !=
header: (clear if nonempty); append_row(header)` — i.e. on a missing or
mismatched header the store is reset to just the header row, otherwise the
rows are untouched. -/
def ensureHeader (values : List Row) : List Row :=
  if values.isEmpty ∨ ¬ values.head? = some HEADER then [HEADER] else values

/-- `existing_urls(ws)`: collect `row[4]` from every data row (skipping the
header) that has at least five cells and a nonempty URL cell.  The source
builds a `set`; membership is all that is consumed, so a list suffices. -/
def existing_urls (rows : List Row) : List (List Char) :=
  (rows.drop 1).filterMap (fun row =>
    if 5 ≤ row.length ∧ ¬ row.getD 4 [] = [] then some (row.getD 4 []) else none)

/-- The dedup loop of `run_once`: drop a lead whose `url` is already seen,
otherwise keep it and add its `url` to the seen set. -/
def dedup (seen : List (List Char)) : List Lead → List Lead
  | [] => []
  | l :: rest =>
    if l.url ∈ seen then dedup seen rest
    else l :: dedup (l.url :: seen) rest

/-- The row built from a lead in `run_once`. -/
def leadToRow (l : Lead) : Row :=
  [l.timestamp, l.source, l.who, l.title, l.url, l.tags]

/-- What `email_csv` would send: the attached rows, the summary counts it
was handed, and the total (`sum(summary_counts.values())`) reported in the
subject line. -/
structure EmailMsg where
  rows : List Row
  counts : List (List Char × Nat)
  total : Nat
  deriving DecidableEq

/-- `email_csv(new_rows, summary_counts)`: skipped entirely when there are
no new rows, otherwise a message is sent. -/
def email_csv (new_rows : List Row) (summary_counts : List (List Char × Nat)) :
    Option EmailMsg :=
  if new_rows.isEmpty then none
  else some { rows := new_rows, counts := summary_counts,
              total := (summary_counts.map (·.2)).sum }

def syncRssLabel : List Char := "Sync RSS".toList

/-- Result of one run: the sheet's final rows, the rows appended this run,
and the e-mail sent (if any). -/
structure RunOutcome where
  sheet : List Row
  appended : List Row
  email : Option EmailMsg
  deriving DecidableEq

/-- `run_once()`, with the effectful boundaries made explicit: the sheet's
initial rows and the already-fetched leads are parameters.  Mirrors the
source: repair the header, read the seen URLs, dedup the concatenated
candidates, append the new rows (skipped when empty), count Reddit versus
non-Reddit rows, and e-mail the summary. -/
def run_once (initialRows : List Row) (reddit_leads rss_leads : List Lead) :
    RunOutcome :=
  let ws := ensureHeader initialRows
  let seen := existing_urls ws
  let new_items := dedup seen (reddit_leads ++ rss_leads)
  let new_rows := new_items.map leadToRow
  let sheet := if new_rows.isEmpty then ws else ws ++ new_rows
  let counts := [(redditSource, new_rows.countP (fun r => r.getD 1 [] == redditSource)),
                 (syncRssLabel, new_rows.countP (fun r => !(r.getD 1 [] == redditSource)))]
  { sheet := sheet, appended := new_rows, email := email_csv new_rows counts }

/-! Specification-side definitions, written from the spec's words, to be
compared with the code-derived definitions above. -/

/-- Spec-side matching predicate: some term of the set occurs as a
substring of the text. -/
def MatchesAny (t : List Char) (terms : List (List Char)) : Prop :=
  ∃ p ∈ terms, p <:+: t

/-- Modelled from the spec (claim C4's wording): keep a candidate iff its
url is not in the initial seen set and has not occurred earlier in the
candidate list; `earlier` accumulates the urls of all candidates already
examined, kept or not. -/
def dedupSpec (seen0 earlier : List (List Char)) : List Lead → List Lead
  | [] => []
  | l :: rest =>
    if l.url ∈ seen0 ∨ l.url ∈ earlier then dedupSpec seen0 (l.url :: earlier) rest
    else l :: dedupSpec seen0 (l.url :: earlier) rest

/-- Modelled from the spec (claim C10's variant): `looks_like_buyer`
without the separate `"$" in text` disjunct. -/
def looksLikeBuyerNoDollar (text : List Char) : Bool :=
  let intent := contains_any text INTENT_TERMS
  let asset := contains_any text ASSET_TERMS
  let style := contains_any text GENRE_TERMS
  let syncy := contains_any text USE_CASE_TERMS || contains_any text SYNCY_TERMS
  asset && intent && (style || syncy)

/-- A lead with a given url and placeholder fields, used in concrete
dedup/run scenarios. -/
def exampleLead (u : String) : Lead :=
  { timestamp := [], source := redditSource, who := [], title := [],
    url := u.toList, tags := [] }

/-! Bridge lemmas between the executable matcher and the spec-side
predicate. -/

theorem containsSub_iff (hay pat : List Char) :
    containsSub hay pat = true ↔ pat <:+: hay := by
  induction hay with
  | nil =>
    simp only [containsSub, List.isEmpty_iff, List.infix_nil]
  | cons h t ih =>
    simp only [containsSub, Bool.or_eq_true, ih, List.isPrefixOf_iff_prefix]
    exact (List.infix_cons_iff).symm

theorem contains_any_iff (t : List Char) (terms : List (List Char)) :
    contains_any t terms = true ↔ MatchesAny t terms := by
  simp only [contains_any, List.any_eq_true, containsSub_iff, MatchesAny]

/-- C1: `looks_like_buyer` accepts exactly the texts with an ASSET match,
an INTENT match or a literal `$`, and a GENRE, USE_CASE or sync-set match;
consequently ASSET+INTENT+GENRE always accepts, and ASSET without INTENT
and without `$` always rejects. -/
theorem C1_social_rule (t : List Char) :
    (looks_like_buyer t = true ↔
      MatchesAny t ASSET_TERMS ∧
        (MatchesAny t INTENT_TERMS ∨ "$".toList <:+: t) ∧
        (MatchesAny t GENRE_TERMS ∨ MatchesAny t USE_CASE_TERMS ∨
          MatchesAny t SYNCY_TERMS)) ∧
    (MatchesAny t ASSET_TERMS → MatchesAny t INTENT_TERMS →
      MatchesAny t GENRE_TERMS → looks_like_buyer t = true) ∧
    (MatchesAny t ASSET_TERMS → ¬ MatchesAny t INTENT_TERMS →
      ¬ "$".toList <:+: t → looks_like_buyer t = false) := by
  have hiff : looks_like_buyer t = true ↔
      MatchesAny t ASSET_TERMS ∧
        (MatchesAny t INTENT_TERMS ∨ "$".toList <:+: t) ∧
        (MatchesAny t GENRE_TERMS ∨ MatchesAny t USE_CASE_TERMS ∨
          MatchesAny t SYNCY_TERMS) := by
    simp only [looks_like_buyer, Bool.and_eq_true, Bool.or_eq_true,
      contains_any_iff, containsSub_iff]
    tauto
  refine ⟨hiff, fun ha hi hg => hiff.mpr ⟨ha, Or.inl hi, Or.inl hg⟩,
    fun ha hni hnd => ?_⟩
  cases hb : looks_like_buyer t
  · rfl
  · rcases (hiff.mp hb).2.1 with hi | hd
    · exact absurd hi hni
    · exact absurd hd hnd

/-- C1 witness: a concrete text with ASSET, INTENT and GENRE matches is
accepted, via the theorem's second conjunct. -/
theorem C1_social_rule_witness :
    looks_like_buyer "looking for trap beats".toList = true :=
  (C1_social_rule ("looking for trap beats".toList)).2.1
    ((contains_any_iff _ _).mp (by decide))
    ((contains_any_iff _ _).mp (by decide))
    ((contains_any_iff _ _).mp (by decide))

/-- C10: since `"$"` is itself a member of `INTENT_TERMS`, the separate
`"$" in text` disjunct is redundant: `looks_like_buyer` coincides with the
variant that only tests `contains_any(text, INTENT_TERMS)`. -/
theorem C10_dollar_redundant (t : List Char) :
    looks_like_buyer t = looksLikeBuyerNoDollar t := by
  unfold looks_like_buyer looksLikeBuyerNoDollar
  have h : (contains_any t INTENT_TERMS || containsSub t "$".toList) =
      contains_any t INTENT_TERMS := by
    cases hd : containsSub t "$".toList
    · simp
    · have hi : contains_any t INTENT_TERMS = true :=
        List.any_eq_true.mpr ⟨"$".toList, by decide, hd⟩
      simp [hi]
  rw [h]

/-- C2: any record whose normalized title matches a NEGATIVE term yields no
lead, in both the social pipeline and the syndication pipeline, regardless
of any other matches. -/
theorem C2_noise_rejected (q ts src : List Char) (p : RedditPost) (e : RssEntry) :
    (is_noise (normalize p.title) = true → redditProcess q ts p = none) ∧
    (is_noise (normalize e.title) = true → rssProcess src ts e = none) := by
  constructor
  · intro h
    simp [redditProcess, h]
  · intro h
    simp [rssProcess, h]

/-- C2 witness: a concrete noisy title ("free beats") is dropped by both
pipelines. -/
theorem C2_noise_rejected_witness :
    redditProcess [] [] { title := "free beats".toList, author := [], permalink := [], url := [] } = none ∧
    rssProcess [] [] { title := "free beats".toList, link := "l".toList } = none :=
  ⟨(C2_noise_rejected [] [] []
      { title := "free beats".toList, author := [], permalink := [], url := [] }
      { title := "free beats".toList, link := "l".toList }).1 (by decide),
   (C2_noise_rejected [] [] []
      { title := "free beats".toList, author := [], permalink := [], url := [] }
      { title := "free beats".toList, link := "l".toList }).2 (by decide)⟩

/-- The dedup loop agrees with the spec-side filter whenever the seen set
is extensionally the union of the initial set and the accumulated earlier
urls. -/
theorem dedup_eq_dedupSpec (leads : List Lead) :
    ∀ seen S E : List (List Char), (∀ u, u ∈ seen ↔ u ∈ S ∨ u ∈ E) →
      dedup seen leads = dedupSpec S E leads := by
  induction leads with
  | nil => intro seen S E _; rfl
  | cons l rest ih =>
    intro seen S E h
    by_cases hm : l.url ∈ seen
    · simp only [dedup, dedupSpec]
      rw [if_pos hm, if_pos ((h l.url).mp hm)]
      refine ih seen S (l.url :: E) (fun u => ?_)
      constructor
      · intro hu
        rcases (h u).mp hu with h1 | h2
        · exact Or.inl h1
        · exact Or.inr (List.mem_cons_of_mem _ h2)
      · rintro (h1 | h2)
        · exact (h u).mpr (Or.inl h1)
        · rcases List.mem_cons.mp h2 with rfl | h3
          · exact hm
          · exact (h u).mpr (Or.inr h3)
    · have hs : ¬ (l.url ∈ S ∨ l.url ∈ E) := fun hc => hm ((h l.url).mpr hc)
      simp only [dedup, dedupSpec]
      rw [if_neg hm, if_neg hs]
      congr 1
      refine ih (l.url :: seen) S (l.url :: E) (fun u => ?_)
      constructor
      · intro hu
        rcases List.mem_cons.mp hu with rfl | h2
        · exact Or.inr (List.mem_cons_self _ _)
        · rcases (h u).mp h2 with h1 | h3
          · exact Or.inl h1
          · exact Or.inr (List.mem_cons_of_mem _ h3)
      · rintro (h1 | h2)
        · exact List.mem_cons_of_mem _ ((h u).mpr (Or.inl h1))
        · rcases List.mem_cons.mp h2 with rfl | h3
          · exact List.mem_cons_self _ _
          · exact List.mem_cons_of_mem _ ((h u).mpr (Or.inr h3))

/-- C4: the dedup pass keeps exactly the order-preserving subsequence of
candidates whose url is neither in the initial seen set nor occurred
earlier in the candidate list; in particular with seen set `{"u1"}` and
candidate urls `[u1, u2, u2]` only the first `u2` lead survives. -/
theorem C4_dedup (S : List (List Char)) (cands : List Lead) :
    (dedup S cands = dedupSpec S [] cands) ∧
    (∀ l1 l2 l3 : Lead, l1.url = "u1".toList → l2.url = "u2".toList →
      l3.url = "u2".toList → dedup ["u1".toList] [l1, l2, l3] = [l2]) := by
  constructor
  · exact dedup_eq_dedupSpec cands S S [] (fun u => by simp)
  · intro l1 l2 l3 h1 h2 h3
    have m1 : l1.url ∈ (["u1".toList] : List (List Char)) := by
      rw [h1]; exact List.mem_singleton.mpr rfl
    have m2 : l2.url ∉ (["u1".toList] : List (List Char)) := by
      rw [h2]; decide
    have m3 : l3.url ∈ (l2.url :: ["u1".toList]) := by
      rw [h2, h3]; exact List.mem_cons_self _ _
    simp only [dedup]
    rw [if_pos m1, if_neg m2, if_pos m3]

/-- C4 witness: the concrete scenario of the claim, via the theorem's
second conjunct. -/
theorem C4_dedup_witness :
    dedup ["u1".toList] [exampleLead "u1", exampleLead "u2", exampleLead "u2"] =
      [exampleLead "u2"] :=
  (C4_dedup [] []).2 (exampleLead "u1") (exampleLead "u2") (exampleLead "u2")
    rfl rfl rfl

/-- C6: a missing or mismatched header row resets the store to exactly the
header row; a matching header row leaves the rows unchanged. -/
theorem C6_header_reset (values : List Row) :
    ((values = [] ∨ ¬ values.head? = some HEADER) → ensureHeader values = [HEADER]) ∧
    (values.head? = some HEADER → ensureHeader values = values) := by
  constructor
  · intro h
    unfold ensureHeader
    rw [if_pos]
    rcases h with h | h
    · exact Or.inl (by simp [h])
    · exact Or.inr h
  · intro h
    unfold ensureHeader
    rw [if_neg]
    rintro (hc | hc)
    · rw [List.isEmpty_iff] at hc
      rw [hc] at h
      exact Option.noConfusion h
    · exact hc h

/-- C6 witness: a sheet with a junk first row is reset, and a sheet whose
first row is the expected header is left unchanged. -/
theorem C6_header_reset_witness :
    ensureHeader [["junk".toList]] = [HEADER] ∧ ensureHeader [HEADER] = [HEADER] :=
  ⟨(C6_header_reset [["junk".toList]]).1 (Or.inr (by decide)),
   (C6_header_reset [HEADER]).2 rfl⟩

/-- C8: when the deduplicated accepted set is empty, the run appends no
rows (the sheet is exactly its post-header-check state) and sends no
e-mail. -/
theorem C8_empty_run_skips (initialRows : List Row) (reddit_leads rss_leads : List Lead)
    (h : dedup (existing_urls (ensureHeader initialRows)) (reddit_leads ++ rss_leads) = []) :
    (run_once initialRows reddit_leads rss_leads).sheet = ensureHeader initialRows ∧
    (run_once initialRows reddit_leads rss_leads).appended = [] ∧
    (run_once initialRows reddit_leads rss_leads).email = none := by
  refine ⟨?_, ?_, ?_⟩ <;> simp [run_once, h, email_csv]

/-- C8 witness: a run with no fetched leads changes nothing and sends
nothing. -/
theorem C8_empty_run_skips_witness :
    (run_once [] [] []).sheet = ensureHeader [] ∧
    (run_once [] [] []).appended = [] ∧
    (run_once [] [] []).email = none :=
  C8_empty_run_skips [] [] [] rfl

/-- Counting the elements satisfying a predicate and those falsifying it
partitions the length. -/
theorem countP_add_countP_not {α : Type} (p : α → Bool) (l : List α) :
    l.countP p + l.countP (fun a => !(p a)) = l.length := by
  induction l with
  | nil => rfl
  | cons a l ih =>
    cases hpa : p a <;>
      simp [List.countP_cons, hpa] <;> omega

/-- The e-mail sent by a run is `email_csv` of the appended rows and the
Reddit / non-Reddit partition counts. -/
theorem run_once_email (initialRows : List Row) (reddit_leads rss_leads : List Lead) :
    (run_once initialRows reddit_leads rss_leads).email =
      email_csv ((run_once initialRows reddit_leads rss_leads).appended)
        [(redditSource, ((run_once initialRows reddit_leads rss_leads).appended).countP
            (fun r => r.getD 1 [] == redditSource)),
         (syncRssLabel, ((run_once initialRows reddit_leads rss_leads).appended).countP
            (fun r => !(r.getD 1 [] == redditSource)))] := rfl

/-- C9: on a run that appends rows, the notifier receives the appended
rows with a count of the rows whose source cell is "Reddit", a count of
all the others, and a reported total equal to the number of appended rows
(the two counts sum to it). -/
theorem C9_counts_partition (initialRows : List Row) (reddit_leads rss_leads : List Lead)
    (h : ¬ (run_once initialRows reddit_leads rss_leads).appended = []) :
    (run_once initialRows reddit_leads rss_leads).email =
      some { rows := (run_once initialRows reddit_leads rss_leads).appended,
             counts := [(redditSource,
                 ((run_once initialRows reddit_leads rss_leads).appended).countP
                   (fun r => r.getD 1 [] == redditSource)),
               (syncRssLabel,
                 ((run_once initialRows reddit_leads rss_leads).appended).countP
                   (fun r => !(r.getD 1 [] == redditSource)))],
             total := ((run_once initialRows reddit_leads rss_leads).appended).length } ∧
    ((run_once initialRows reddit_leads rss_leads).appended).countP
        (fun r => r.getD 1 [] == redditSource) +
      ((run_once initialRows reddit_leads rss_leads).appended).countP
        (fun r => !(r.getD 1 [] == redditSource)) =
      ((run_once initialRows reddit_leads rss_leads).appended).length := by
  have hpart := countP_add_countP_not (fun r : Row => r.getD 1 [] == redditSource)
    ((run_once initialRows reddit_leads rss_leads).appended)
  refine ⟨?_, hpart⟩
  rw [run_once_email]
  unfold email_csv
  rw [if_neg (fun hc : ((run_once initialRows reddit_leads rss_leads).appended).isEmpty = true =>
    h (List.isEmpty_iff.mp hc))]
  congr 2


/-- C9 witness: a run appending a single Reddit-sourced row reports counts
(1, 0) and total 1. -/
theorem C9_counts_partition_witness :
    (run_once [] [exampleLead "u"] []).email =
      some { rows := (run_once [] [exampleLead "u"] []).appended,
             counts := [(redditSource,
                 ((run_once [] [exampleLead "u"] []).appended).countP
                   (fun r => r.getD 1 [] == redditSource)),
               (syncRssLabel,
                 ((run_once [] [exampleLead "u"] []).appended).countP
                   (fun r => !(r.getD 1 [] == redditSource)))],
             total := ((run_once [] [exampleLead "u"] []).appended).length } ∧
    ((run_once [] [exampleLead "u"] []).appended).countP
        (fun r => r.getD 1 [] == redditSource) +
      ((run_once [] [exampleLead "u"] []).appended).countP
        (fun r => !(r.getD 1 [] == redditSource)) =
      ((run_once [] [exampleLead "u"] []).appended).length :=
  C9_counts_partition [] [exampleLead "u"] [] (by decide)

/-- C3: for a linked feed entry, the syndication rule accepts exactly the
non-noise titles with a secondary-intent match and a genre (or
hiphop/urban) match; a title with a genre match but no intent-phrase match
is rejected, and a non-noise title containing both "sync" and "trap" is
accepted. -/
theorem C3_rss_rule (src ts : List Char) (e : RssEntry) (hl : ¬ e.link = []) :
    (is_noise (normalize e.title) = false →
      ((rssProcess src ts e).isSome = true ↔
        MatchesAny (normalize e.title) RSS_SECONDARY_TERMS ∧
          (MatchesAny (normalize e.title) GENRE_TERMS ∨
            MatchesAny (normalize e.title) RSS_STYLE_EXTRA))) ∧
    (MatchesAny (normalize e.title) GENRE_TERMS →
      ¬ MatchesAny (normalize e.title) RSS_SECONDARY_TERMS →
      rssProcess src ts e = none) ∧
    ("sync".toList <:+: normalize e.title → "trap".toList <:+: normalize e.title →
      is_noise (normalize e.title) = false → (rssProcess src ts e).isSome = true) := by
  have hle : e.link.isEmpty = false := by
    cases hE : e.link.isEmpty
    · rfl
    · exact absurd (List.isEmpty_iff.mp hE) hl
  refine ⟨?_, ?_, ?_⟩
  · intro hn
    by_cases hb : (contains_any (normalize e.title) RSS_SECONDARY_TERMS &&
        (contains_any (normalize e.title) GENRE_TERMS ||
          contains_any (normalize e.title) RSS_STYLE_EXTRA)) = true
    · have hsome : (rssProcess src ts e).isSome = true := by
        simp [rssProcess, hle, hn, hb]
      rw [hsome]
      rw [Bool.and_eq_true, Bool.or_eq_true] at hb
      simp only [true_iff]
      exact ⟨(contains_any_iff _ _).mp hb.1,
        hb.2.imp (contains_any_iff _ _).mp (contains_any_iff _ _).mp⟩
    · have hb' : (contains_any (normalize e.title) RSS_SECONDARY_TERMS &&
          (contains_any (normalize e.title) GENRE_TERMS ||
            contains_any (normalize e.title) RSS_STYLE_EXTRA)) = false := by
        cases hcb : (contains_any (normalize e.title) RSS_SECONDARY_TERMS &&
            (contains_any (normalize e.title) GENRE_TERMS ||
              contains_any (normalize e.title) RSS_STYLE_EXTRA))
        · rfl
        · exact absurd hcb hb
      have hnone : rssProcess src ts e = none := by
        simp [rssProcess, hle, hn, hb']
      rw [hnone]
      simp only [Option.isSome_none]
      constructor
      · intro hc
        exact absurd hc (by decide)
      · intro hc
        exfalso
        apply hb
        rw [Bool.and_eq_true, Bool.or_eq_true]
        exact ⟨(contains_any_iff _ _).mpr hc.1,
          hc.2.imp (contains_any_iff _ _).mpr (contains_any_iff _ _).mpr⟩
  · intro _ hns
    have hb : contains_any (normalize e.title) RSS_SECONDARY_TERMS = false := by
      cases hc : contains_any (normalize e.title) RSS_SECONDARY_TERMS
      · rfl
      · exact absurd ((contains_any_iff _ _).mp hc) hns
    simp [rssProcess, hb]
  · intro hs ht hn
    have hsec : contains_any (normalize e.title) RSS_SECONDARY_TERMS = true :=
      (contains_any_iff _ _).mpr ⟨"sync".toList, by decide, hs⟩
    have hgen : contains_any (normalize e.title) GENRE_TERMS = true :=
      (contains_any_iff _ _).mpr ⟨"trap".toList, by decide, ht⟩
    simp [rssProcess, hle, hn, hsec, hgen]

/-- C3 witness: the entry titled "sync trap" with a nonempty link is
accepted, via the theorem's third conjunct. -/
theorem C3_rss_rule_witness :
    (rssProcess [] [] { title := "sync trap".toList, link := "l".toList }).isSome = true :=
  (C3_rss_rule [] [] { title := "sync trap".toList, link := "l".toList }
    (by decide)).2.2 (by decide) (by decide) (by decide)

/-- C7: an accepted social record's url is the Reddit base concatenated
with the permalink when the permalink is nonempty, and the direct url
field otherwise; a record with both fields empty is dropped, as is a
record with a nonempty title that fails classification. -/
theorem C7_reddit_url (q ts : List Char) (p : RedditPost) :
    (¬ p.permalink = [] → ∀ lead, redditProcess q ts p = some lead →
      lead.url = REDDIT_BASE ++ p.permalink) ∧
    (p.permalink = [] → ∀ lead, redditProcess q ts p = some lead →
      lead.url = p.url) ∧
    (p.permalink = [] → p.url = [] → redditProcess q ts p = none) ∧
    (¬ p.title = [] → looks_like_buyer (normalize p.title) = false →
      redditProcess q ts p = none) := by
  refine ⟨?_, ?_, ?_, ?_⟩
  · intro hperm lead hsome
    have hpe : p.permalink.isEmpty = false := by
      cases hE : p.permalink.isEmpty
      · rfl
      · exact absurd (List.isEmpty_iff.mp hE) hperm
    have hu : (if !p.permalink.isEmpty then REDDIT_BASE ++ p.permalink else p.url) =
        REDDIT_BASE ++ p.permalink := by
      rw [hpe]
      rfl
    simp only [redditProcess] at hsome
    rw [hu] at hsome
    split at hsome
    · exact Option.noConfusion hsome
    · split at hsome
      · exact Option.noConfusion hsome
      · injection hsome with h
        rw [← h]
  · intro hperm lead hsome
    have hu : (if !p.permalink.isEmpty then REDDIT_BASE ++ p.permalink else p.url) =
        p.url := by
      rw [hperm]
      rfl
    simp only [redditProcess] at hsome
    rw [hu] at hsome
    split at hsome
    · exact Option.noConfusion hsome
    · split at hsome
      · exact Option.noConfusion hsome
      · injection hsome with h
        rw [← h]
  · intro hperm hurl
    simp [redditProcess, hperm, hurl]
  · intro _ hb
    simp [redditProcess, hb]

/-- C7 witness: a concrete accepted record's url is built from the
permalink; a record with both url fields empty is dropped; a non-buyer
title is dropped. -/
theorem C7_reddit_url_witness :
    ({ timestamp := [], source := redditSource, who := "u/".toList ++ unknownAuthor, title := "buying trap beats".toList, url := REDDIT_BASE ++ "/r/x".toList, tags := "reddit; ".toList } : Lead).url = REDDIT_BASE ++ "/r/x".toList ∧
    redditProcess [] [] { title := "x".toList, author := [], permalink := [], url := [] } = none ∧
    redditProcess [] [] { title := "hello world".toList, author := [], permalink := "/r/y".toList, url := [] } = none :=
  ⟨(C7_reddit_url [] [] { title := "buying trap beats".toList, author := [], permalink := "/r/x".toList, url := [] }).1
      (by decide) _ (by decide),
   (C7_reddit_url [] [] { title := "x".toList, author := [], permalink := [], url := [] }).2.2.1 rfl rfl,
   (C7_reddit_url [] [] { title := "hello world".toList, author := [], permalink := "/r/y".toList, url := [] }).2.2.2
      (by decide) (by decide)⟩

/-! Character-level facts about ASCII lowercasing and whitespace, used for
the idempotence of `normalize`. -/

theorem char_toNat_ofNat {n : Nat} (h : n < 55296) : (Char.ofNat n).toNat = n := by
  have hv : n.isValidChar := Or.inl h
  simp [Char.ofNat, hv, Char.ofNatAux, Char.toNat, UInt32.toNat, BitVec.toNat_ofNatLt]

theorem toLower_toNat (c : Char) :
    (c.toLower).toNat = if 65 ≤ c.toNat ∧ c.toNat ≤ 90 then c.toNat + 32 else c.toNat := by
  unfold Char.toLower
  split
  · next h =>
    rw [if_pos ⟨h.1, h.2⟩]
    exact char_toNat_ofNat (by omega)
  · next h =>
    rw [if_neg h]

theorem toLower_eq_self (c : Char) (h : ¬(65 ≤ c.toNat ∧ c.toNat ≤ 90)) :
    c.toLower = c := by
  unfold Char.toLower
  rw [if_neg]
  intro hc
  exact h ⟨hc.1, hc.2⟩

theorem toLower_idem (c : Char) : c.toLower.toLower = c.toLower := by
  by_cases h : 65 ≤ c.toNat ∧ c.toNat ≤ 90
  · have h1 : (c.toLower).toNat = c.toNat + 32 := by
      rw [toLower_toNat, if_pos h]
    apply toLower_eq_self
    rw [h1]
    omega
  · rw [toLower_eq_self c h]
    exact toLower_eq_self c h

theorem isWs_toLower (c : Char) : isWs c.toLower = isWs c := by
  by_cases h : 65 ≤ c.toNat ∧ c.toNat ≤ 90
  · have h1 : (c.toLower).toNat = c.toNat + 32 := by
      rw [toLower_toNat, if_pos h]
    have ha : isWs c = false := by
      simp only [isWs, Bool.or_eq_false_iff, decide_eq_false_iff_not]
      omega
    have hb : isWs c.toLower = false := by
      simp only [isWs, h1, Bool.or_eq_false_iff, decide_eq_false_iff_not]
      omega
    rw [ha, hb]
  · rw [toLower_eq_self c h]

theorem toLower_space : Char.toLower ' ' = ' ' := by decide

/-! Lowercasing commutes with the whitespace-collapsing pipeline, so the
output of `normalize` is a fixed point of `List.map Char.toLower`. -/

theorem collapseWs_map_toLower (l : List Char) :
    ∀ b, (collapseWs b l).map Char.toLower = collapseWs b (l.map Char.toLower) := by
  induction l with
  | nil => intro b; rfl
  | cons c cs ih =>
    intro b
    cases b <;> by_cases h : isWs c = true <;>
      simp [collapseWs, h, isWs_toLower, toLower_space, ih]

theorem dropWhile_map_toLower (l : List Char) :
    (l.dropWhile isWs).map Char.toLower = (l.map Char.toLower).dropWhile isWs := by
  induction l with
  | nil => rfl
  | cons c cs ih =>
    by_cases h : isWs c = true <;>
      simp [List.dropWhile_cons, isWs_toLower, h, ih]

theorem stripWs_map_toLower (l : List Char) :
    (stripWs l).map Char.toLower = stripWs (l.map Char.toLower) := by
  unfold stripWs
  rw [List.map_reverse, dropWhile_map_toLower, List.map_reverse, dropWhile_map_toLower]

theorem map_toLower_normalize (l : List Char) :
    (normalize l).map Char.toLower = normalize l := by
  unfold normalize
  rw [stripWs_map_toLower, collapseWs_map_toLower, List.map_map]
  have hcomp : (Char.toLower ∘ Char.toLower) = Char.toLower := funext toLower_idem
  rw [hcomp]

/-! Structural invariants of the collapsed text, and exact conditions under
which collapsing and stripping are the identity. -/

theorem allWsSpace_collapseWs (l : List Char) : ∀ b, AllWsSpace (collapseWs b l) := by
  induction l with
  | nil =>
    intro b d hd _
    rw [show collapseWs b [] = [] from rfl] at hd
    cases hd
  | cons c cs ih =>
    intro b
    by_cases h : isWs c = true
    · cases b with
      | true =>
        rw [show collapseWs true (c :: cs) = collapseWs true cs from by
          simp [collapseWs, h]]
        exact ih true
      | false =>
        intro d hd hw
        rw [show collapseWs false (c :: cs) = ' ' :: collapseWs true cs from by
          simp [collapseWs, h]] at hd
        rcases List.mem_cons.mp hd with rfl | hd'
        · rfl
        · exact ih true d hd' hw
    · intro d hd hw
      rw [show collapseWs b (c :: cs) = c :: collapseWs false cs from by
        simp [collapseWs, h]] at hd
      rcases List.mem_cons.mp hd with rfl | hd'
      · exact absurd hw h
      · exact ih false d hd' hw

theorem collapseWs_true_head (l : List Char) :
    ∀ {c : Char} {cs : List Char}, collapseWs true l = c :: cs → isWs c = false := by
  induction l with
  | nil =>
    intro c cs h
    exact List.noConfusion h
  | cons d ds ih =>
    intro c cs h
    by_cases hw : isWs d = true
    · rw [show collapseWs true (d :: ds) = collapseWs true ds from by
        simp [collapseWs, hw]] at h
      exact ih h
    · rw [show collapseWs true (d :: ds) = d :: collapseWs false ds from by
        simp [collapseWs, hw]] at h
      injection h with h1 _
      rw [← h1]
      cases hdb : isWs d
      · rfl
      · exact absurd hdb hw

theorem noAdjWs_collapseWs (l : List Char) : ∀ b, NoAdjWs (collapseWs b l) := by
  induction l with
  | nil =>
    intro b
    rw [show collapseWs b [] = [] from rfl]
    exact List.chain'_nil
  | cons c cs ih =>
    intro b
    by_cases h : isWs c = true
    · cases b with
      | true =>
        rw [show collapseWs true (c :: cs) = collapseWs true cs from by
          simp [collapseWs, h]]
        exact ih true
      | false =>
        rw [show collapseWs false (c :: cs) = ' ' :: collapseWs true cs from by
          simp [collapseWs, h]]
        refine List.chain'_cons'.mpr ⟨?_, ih true⟩
        intro y hy
        rintro ⟨-, hwy⟩
        cases hcc : collapseWs true cs with
        | nil =>
          rw [hcc] at hy
          cases hy
        | cons a as =>
          rw [hcc] at hy
          have hya : a = y := by simpa using hy
          rw [← hya] at hwy
          rw [collapseWs_true_head cs hcc] at hwy
          exact Bool.noConfusion hwy
    · rw [show collapseWs b (c :: cs) = c :: collapseWs false cs from by
        simp [collapseWs, h]]
      refine List.chain'_cons'.mpr ⟨?_, ih false⟩
      intro y _
      rintro ⟨hwc, -⟩
      exact h hwc

/-- `stripWs l` is a prefix of `l.dropWhile isWs`. -/
theorem stripWs_isPre (l : List Char) : stripWs l <+: l.dropWhile isWs := by
  have hp : ((l.dropWhile isWs).reverse).dropWhile isWs <:+ (l.dropWhile isWs).reverse :=
    List.dropWhile_suffix isWs
  have hp2 := List.reverse_prefix.mpr hp
  rw [List.reverse_reverse] at hp2
  exact hp2

theorem allWsSpace_stripWs (l : List Char) (h : AllWsSpace l) : AllWsSpace (stripWs l) := by
  intro c hc hw
  have hsub : List.Sublist (stripWs l) l :=
    (stripWs_isPre l).sublist.trans (List.dropWhile_sublist isWs)
  exact h c (hsub.mem hc) hw

theorem noAdjWs_stripWs (l : List Char) (h : NoAdjWs l) : NoAdjWs (stripWs l) := by
  have h1 : NoAdjWs (l.dropWhile isWs) :=
    List.Chain'.suffix h (List.dropWhile_suffix isWs)
  exact List.Chain'.prefix h1 (stripWs_isPre l)

theorem head_dropWhile_notWs (l : List Char) :
    ∀ c ∈ (l.dropWhile isWs).head?, isWs c = false := by
  intro c hc
  have hmatch := List.head?_dropWhile_not isWs l
  cases hh : (l.dropWhile isWs).head? with
  | none =>
    rw [hh] at hc
    cases hc
  | some a =>
    rw [hh] at hmatch hc
    have hca : a = c := by simpa using hc
    rw [← hca]
    exact hmatch

theorem head_stripWs_notWs (l : List Char) :
    ∀ c ∈ (stripWs l).head?, isWs c = false := by
  intro c hc
  cases hsl : stripWs l with
  | nil =>
    rw [hsl] at hc
    cases hc
  | cons a as =>
    have hpre := stripWs_isPre l
    rw [hsl] at hc hpre
    obtain ⟨t, ht⟩ := hpre
    have hhead : (l.dropWhile isWs).head? = some a := by
      rw [← ht]
      rfl
    have hca : a = c := by simpa using hc
    rw [← hca]
    apply head_dropWhile_notWs l a
    rw [hhead]
    rfl

theorem head_reverse_stripWs_notWs (l : List Char) :
    ∀ c ∈ (stripWs l).reverse.head?, isWs c = false := by
  unfold stripWs
  rw [List.reverse_reverse]
  exact head_dropWhile_notWs ((l.dropWhile isWs).reverse)

theorem dropWhile_eq_self_of_head (l : List Char)
    (h : ∀ c ∈ l.head?, isWs c = false) : l.dropWhile isWs = l := by
  cases l with
  | nil => rfl
  | cons a as =>
    have ha : isWs a = false := h a rfl
    simp [List.dropWhile_cons, ha]

theorem stripWs_eq_self (l : List Char) (h1 : ∀ c ∈ l.head?, isWs c = false)
    (h2 : ∀ c ∈ l.reverse.head?, isWs c = false) : stripWs l = l := by
  unfold stripWs
  rw [dropWhile_eq_self_of_head l h1, dropWhile_eq_self_of_head l.reverse h2,
    List.reverse_reverse]

theorem collapseWs_eq_self (l : List Char) :
    ∀ b, AllWsSpace l → NoAdjWs l → (b = true → ∀ c ∈ l.head?, isWs c = false) →
      collapseWs b l = l := by
  induction l with
  | nil => intro b _ _ _; rfl
  | cons c cs ih =>
    intro b hsp hadj hb
    have hspcs : AllWsSpace cs := fun d hd hwd => hsp d (List.mem_cons_of_mem _ hd) hwd
    have hadjcs : NoAdjWs cs := List.Chain'.tail hadj
    by_cases hw : isWs c = true
    · cases b with
      | true =>
        have hf := hb rfl c rfl
        rw [hw] at hf
        exact Bool.noConfusion hf
      | false =>
        have hc : c = ' ' := hsp c (List.mem_cons_self _ _) hw
        rw [show collapseWs false (c :: cs) = ' ' :: collapseWs true cs from by
          simp [collapseWs, hw]]
        rw [← hc]
        congr 1
        apply ih true hspcs hadjcs
        intro _ d hd
        have hR := (List.chain'_cons'.mp hadj).1 d hd
        cases hdb : isWs d
        · rfl
        · exact absurd ⟨hw, hdb⟩ hR
    · rw [show collapseWs b (c :: cs) = c :: collapseWs false cs from by
        simp [collapseWs, hw]]
      congr 1
      apply ih false hspcs hadjcs
      intro hfalse
      exact absurd hfalse (by decide)

/-- C5: `normalize` is idempotent, and both the empty and the absent input
normalize to the empty string. -/
theorem C5_normalize_idempotent :
    (∀ x : List Char, normalize (normalize x) = normalize x) ∧
    normalize [] = [] ∧ normalizeOpt none = [] := by
  refine ⟨?_, rfl, rfl⟩
  intro x
  have hmap : (normalize x).map Char.toLower = normalize x := map_toLower_normalize x
  show stripWs (collapseWs false ((normalize x).map Char.toLower)) = normalize x
  rw [hmap]
  have hsp : AllWsSpace (normalize x) :=
    allWsSpace_stripWs _ (allWsSpace_collapseWs _ false)
  have hadj : NoAdjWs (normalize x) :=
    noAdjWs_stripWs _ (noAdjWs_collapseWs _ false)
  rw [collapseWs_eq_self (normalize x) false hsp hadj (fun h => absurd h (by decide))]
  exact stripWs_eq_self (normalize x) (head_stripWs_notWs _) (head_reverse_stripWs_notWs _)

end BeatFindr
